import Mathlib

set_option maxRecDepth 100000

/-!
Verification of the Cost-Center reconciliation scripts.

The Python sources modelled here are:
  - sync_team_cost_center_exact.py (namespace ExactSync)
  - sync_team_to_cost_center.py    (namespace TeamSync)
  - test.py                        (namespace TestSync)

Strings are modelled by Lean strings; the Python string operations used by
the scripts (slicing, lower, strip, split, substring membership, find) are
given explicit executable definitions over the character list so that every
theorem can be evaluated on concrete inputs.
-/

/-- Python substring test helper: does the pattern occur at the head of the
haystack (character by character)? -/
def charsLeadMatch : List Char → List Char → Bool
  | [], _ => true
  | _ :: _, [] => false
  | c :: cs, d :: ds => c == d && charsLeadMatch cs ds

/-- Python `pat in hay` for strings, over character lists: the pattern occurs
at some position of the haystack. -/
def charsContain (pat : List Char) : List Char → Bool
  | [] => charsLeadMatch pat []
  | c :: tl => charsLeadMatch pat (c :: tl) || charsContain pat tl

/-- Python `pat in s` substring membership. -/
def strContains (s pat : String) : Bool :=
  charsContain pat.data s.data

/-- Python slice `s[:n]` (character based). -/
def strTake (s : String) (n : Nat) : String :=
  String.mk (s.data.take n)

/-- Python `s.lower()` restricted to ASCII letters, which is all the scripts
compare against. -/
def strLower (s : String) : String :=
  String.mk (s.data.map Char.toLower)

/-- ASCII whitespace recognizer used by the model of Python `str.strip`. -/
def isSpaceChar (c : Char) : Bool :=
  c == ' ' || c == '\t' || c == '\n' || c == '\r'

/-- Python `s.strip()` on ASCII whitespace. -/
def strTrim (s : String) : String :=
  String.mk (((s.data.dropWhile isSpaceChar).reverse.dropWhile isSpaceChar).reverse)

/-- Python `s.split(",")` helper over character lists. -/
def splitCommaChars : List Char → List Char → List (List Char)
  | [], acc => [acc.reverse]
  | c :: tl, acc =>
    if c == ',' then acc.reverse :: splitCommaChars tl []
    else splitCommaChars tl (c :: acc)

/-- Python `s.split(",")`. -/
def strSplitComma (s : String) : List String :=
  (splitCommaChars s.data []).map String.mk

/-- Python `s.find(c)` for a single character: index of the first occurrence,
or -1 when absent. -/
def charFind : List Char → Char → Int
  | [], _ => -1
  | c :: tl, t =>
    if c == t then 0
    else
      let r := charFind tl t
      if r < 0 then -1 else r + 1

/-- Python `s.isdigit()` on ASCII digit strings (nonempty, all digits). -/
def pyIsDigit (s : String) : Bool :=
  s ≠ "" && s.data.all Char.isDigit

/-- Python `int(s)` on a digit string. -/
def strToNat (s : String) : Nat :=
  s.data.foldl (fun a c => a * 10 + (c.toNat - 48)) 0

/-- The literal marker searched for in each Link-header segment. -/
def relNextMarker : String := "rel=\"next\""

/-- The bracket extraction step of `parse_next_link`: Python computes
`start = part.find("<") + 1`, `end = part.find(">")` and returns
`part[start:end]` when `start > 0 and end > start`, otherwise keeps
scanning further segments. -/
def extractAngle (part : String) : Option String :=
  let cs := part.data
  let start : Int := charFind cs '<' + 1
  let e : Int := charFind cs '>'
  if 0 < start ∧ start < e then
    some (String.mk ((cs.drop start.toNat).take (e - start).toNat))
  else
    none

/-- Loop of `parse_next_link` over the comma-split, stripped segments. -/
def findNextIn : List String → Option String
  | [] => none
  | part :: rest =>
    if strContains part relNextMarker then
      match extractAngle part with
      | some u => some u
      | none => findNextIn rest
    else findNextIn rest

/-- Model of `parse_next_link(link_header)`: the header is `none` when the
response carried no Link header (Python `headers.get` returns None), and the
function also returns None for the empty string (`if not link_header`). -/
def parse_next_link (link_header : Option String) : Option String :=
  match link_header with
  | none => none
  | some s =>
    if s = "" then none
    else findNextIn ((strSplitComma s).map strTrim)

/-- Outcome of one mutation call. The Python functions return `(True, msg)`
on success, `(False, msg)` for a benign skip, and raise `SystemExit` (run
abort) otherwise; `fatal` records the HTTP status carried in the abort
message. -/
inductive MutationResult where
  | ok (msg : String)
  | skip (msg : String)
  | fatal (status : Nat)
  deriving DecidableEq

/-- Order-preserving de-duplication loop shared by the scripts
(`seen = set(); unique = []; for x in logins: ...`); the membership test on
`seen` is modelled by list membership. -/
def dedupGo : List String → List String → List String
  | [], _ => []
  | x :: tl, seen =>
    if x ∈ seen then dedupGo tl seen
    else x :: dedupGo tl (x :: seen)

/-- The scripts' de-duplication of the team-member login list. -/
def dedup (xs : List String) : List String :=
  dedupGo xs []

/-- Recursion core of `firstSeenDedup`: keep the head, then deduplicate the
tail with all copies of the head removed. The fuel argument only makes the
recursion structural; it never runs out when it starts at the list length,
because filtering never lengthens the tail. -/
def fsdAux : Nat → List String → List String
  | 0, _ => []
  | _, [] => []
  | fuel + 1, x :: tl => x :: fsdAux fuel (tl.filter (fun a => decide (a ≠ x)))

/-- Modelled from the spec: an IdentitySet is built by deduplicating an
ordered sequence while preserving first-seen order — each distinct value
appears exactly once, at its first occurrence. This is the
specification-side definition that the deduplication loops are compared
against. -/
def firstSeenDedup (xs : List String) : List String :=
  fsdAux xs.length xs

/-- The cost-center script deduplicates with `list(set(logins))`: the result
enumerates the distinct values of the input in an order chosen by the
runtime's hash-based set, which the code does not constrain. A list is a
possible output exactly when it has no duplicates and the same members as
the input. -/
def isSetEnumeration (xs out : List String) : Prop :=
  out.Nodup ∧ (∀ a ∈ out, a ∈ xs) ∧ (∀ a ∈ xs, a ∈ out)

instance (xs out : List String) : Decidable (isSetEnumeration xs out) := by
  unfold isSetEnumeration
  infer_instance

namespace ExactSync

/-- Model of `main`'s `users_to_add = team_set - cost_center_set`
(sync_team_cost_center_exact.py). -/
def users_to_add (team cc : Finset String) : Finset String := team \ cc

/-- Model of `main`'s `users_to_remove = cost_center_set - team_set`. -/
def users_to_remove (team cc : Finset String) : Finset String := cc \ team

/-- Model of `main`'s `users_already_synced = team_set & cost_center_set`. -/
def users_already_synced (team cc : Finset String) : Finset String := team ∩ cc

/-- Model of `add_user_to_cost_center` in sync_team_cost_center_exact.py,
as a function of the response status and body text. -/
def add_user_to_cost_center (login : String) (status : Nat) (body : String) :
    MutationResult :=
  if status = 200 ∨ status = 201 ∨ status = 202 ∨ status = 204 then
    .ok ("Added " ++ login)
  else if status = 409 ∨ status = 422 then
    let b := strLower (strTake body 500)
    if strContains b "already" || strContains b "exists" then
      .skip ("Skip " ++ login ++ ": already exists")
    else
      .skip ("Skip " ++ login ++ ": " ++ strTake body 500)
  else
    .fatal status

/-- Model of `remove_user_from_cost_center` in
sync_team_cost_center_exact.py. -/
def remove_user_from_cost_center (login : String) (status : Nat)
    (body : String) : MutationResult :=
  if status = 200 ∨ status = 201 ∨ status = 202 ∨ status = 204 then
    .ok ("Removed " ++ login)
  else if status = 400 then
    let b := strLower (strTake body 500)
    if strContains b "no resources" then
      .skip ("Skip " ++ login ++ ": not in cost center (API says no resources to remove)")
    else
      .skip ("Skip " ++ login ++ ": " ++ strTake body 500)
  else if status = 404 then
    .skip ("Skip " ++ login ++ ": endpoint or user not found (HTTP 404)")
  else
    .fatal status

/-- One resource entry of the cost-center payload; a missing `type` or
`name` key is `none` (Python `dict.get`). -/
structure CCResource where
  rtype : Option String
  name : Option String

/-- The cost-center GET response as seen by `fetch_cost_center_users`:
status plus the decoded `resources` array (JSON decoding is an external
capability). -/
structure CCResp where
  status : Nat
  resources : List CCResource

/-- Result of `fetch_cost_center_users`: either a login list or a
`SystemExit` abort carrying the HTTP status. -/
inductive CCFetch where
  | ok (users : List String)
  | abortRun (status : Nat)
  deriving DecidableEq

/-- The extraction loop of `fetch_cost_center_users`: keep `name` of every
resource whose `type` is "User" and whose name is truthy (non-empty). -/
def extractCostCenterLogins (resources : List CCResource) : List String :=
  resources.filterMap fun r =>
    if r.rtype = some "User" then
      match r.name with
      | some n => if n = "" then none else some n
      | none => none
    else none

/-- Model of `fetch_cost_center_users` in sync_team_cost_center_exact.py as
a function of the response: 404 returns the empty list, any other non-200
status aborts, and a 200 response yields the extracted logins. (The Python
code then applies `list(set(...))`, whose unordered enumeration is modelled
separately by `isSetEnumeration`.) -/
def fetch_cost_center_users (resp : CCResp) : CCFetch :=
  if resp.status = 404 then .ok []
  else if resp.status ≠ 200 then .abortRun resp.status
  else .ok (extractCostCenterLogins resp.resources)

end ExactSync

namespace TeamSync

/-- Model of `add_user_to_cost_center` in sync_team_to_cost_center.py; this
variant recognizes two further duplicate markers and includes the status in
its messages. -/
def add_user_to_cost_center (login : String) (status : Nat) (body : String) :
    MutationResult :=
  if status = 200 ∨ status = 201 ∨ status = 202 ∨ status = 204 then
    .ok ("Added " ++ login ++ " (HTTP " ++ toString status ++ ")")
  else if status = 409 ∨ status = 422 then
    let b := strLower (strTake body 500)
    if strContains b "already" || strContains b "exists" ||
        strContains b "has already been taken" || strContains b "conflict" then
      .skip ("Skip " ++ login ++ ": already in cost center (HTTP " ++ toString status ++ ")")
    else
      .skip ("Skip " ++ login ++ ": not added (HTTP " ++ toString status ++ ") body=" ++ strTake body 500)
  else
    .fatal status

end TeamSync

namespace TestSync

/-- An HTTP response as observed by `request_with_backoff` in test.py:
status code, the optional Retry-After header, and the message text examined
by `is_secondary_rate_limit` (the JSON `message` field when the body decodes,
else the raw text — both collapse to one string here since JSON decoding is
an external capability). -/
structure HttpResp where
  status : Nat
  retryAfter : Option String
  message : String
  deriving DecidableEq

/-- Model of `is_secondary_rate_limit`: case-insensitive substring test for
"secondary rate limit" on the response's message. -/
def is_secondary_rate_limit (r : HttpResp) : Bool :=
  strContains (strLower r.message) "secondary rate limit"

/-- The condition under which the executor retries: 429 unconditionally, or
403 carrying the secondary-rate-limit marker. -/
def shouldRetry (r : HttpResp) : Bool :=
  (r.status == 429) || ((r.status == 403) && is_secondary_rate_limit r)

/-- The sleep computed before a retry: the Retry-After header when present
and all digits (Python `retry_after and retry_after.isdigit()`), otherwise
`min(max_backoff_seconds, 2**attempt)` plus the jitter drawn for this
attempt (`random.uniform(0, 1.5)` is passed in as `jitter`). -/
def retrySleep (maxBackoff attempt : Nat) (r : HttpResp) (jitter : ℚ) : ℚ :=
  match r.retryAfter with
  | some ra =>
    if pyIsDigit ra then (strToNat ra : ℚ)
    else min (maxBackoff : ℚ) (2 ^ attempt) + jitter
  | none => min (maxBackoff : ℚ) (2 ^ attempt) + jitter

/-- The `for attempt in range(max_retries)` loop of `request_with_backoff`.
`send k` is the response received on attempt `k`; `jitter k` the random
jitter drawn on attempt `k`; `rem` the remaining attempts; `last` the
previous response (Python `last`). Returns the response handed back to the
caller together with the list of sleeps performed. -/
def rwbAux (send : Nat → HttpResp) (jitter : Nat → ℚ) (maxBackoff : Nat) :
    Nat → Nat → Option HttpResp → Option HttpResp × List ℚ
  | 0, _, last => (last, [])
  | rem + 1, attempt, _ =>
    let resp := send attempt
    if resp.status ≠ 403 ∧ resp.status ≠ 429 then (some resp, [])
    else
      let s := retrySleep maxBackoff attempt resp (jitter attempt)
      if (resp.status == 429) || is_secondary_rate_limit resp then
        let r2 := rwbAux send jitter maxBackoff rem (attempt + 1) (some resp)
        (r2.1, s :: r2.2)
      else (some resp, [])

/-- Model of `request_with_backoff` in test.py (defaults: `max_retries = 8`,
`max_backoff_seconds = 60`). -/
def request_with_backoff (send : Nat → HttpResp) (jitter : Nat → ℚ)
    (maxRetries maxBackoff : Nat) : Option HttpResp × List ℚ :=
  rwbAux send jitter maxBackoff maxRetries 0 none

/-- The sleeps the executor performs when attempts `attempt`,
`attempt + 1`, … are all retried `k` times in a row. -/
def expSleeps (send : Nat → HttpResp) (jitter : Nat → ℚ) (maxBackoff : Nat) :
    Nat → Nat → List ℚ
  | _, 0 => []
  | attempt, k + 1 =>
    retrySleep maxBackoff attempt (send attempt) (jitter attempt) ::
      expSleeps send jitter maxBackoff (attempt + 1) k

/-- Model of `chunked(xs, size)` in test.py
(`[xs[i : i + size] for i in range(0, len(xs), size)]`; a zero size raises
in Python and is mapped to the empty list, all claims assume a positive
size). -/
def chunked (xs : List String) (size : Nat) : List (List String) :=
  if xs.isEmpty then []
  else if size = 0 then []
  else xs.take size :: chunked (xs.drop size) size
termination_by xs.length
decreasing_by
  rename_i hne hsz
  have hx : xs ≠ [] := by
    intro h
    rw [h] at hne
    simp at hne
  have : 0 < xs.length := List.length_pos.mpr hx
  simp only [List.length_drop]
  omega

end TestSync

namespace ExactSync

/-- One page response of the memberships endpoint as observed by the fetch
loop in `fetch_enterprise_team_member_logins`: the HTTP status, the logins
extracted from the page's membership records, and the raw Link header
(`none` when the response carried none). `server n` is the response to the
n-th request. -/
structure PageResp where
  status : Nat
  logins : List String
  link : Option String

/-- Result of the membership fetch: the deduplicated logins together with
the number of pages fetched, or a `SystemExit` abort (non-200 page, or the
pagination-loop guard), each recording how many pages were fetched. -/
inductive FetchResult where
  | ok (logins : List String) (pages : Nat)
  | httpError (status : Nat) (pages : Nat)
  | tooManyPages (pages : Nat)
  deriving DecidableEq

/-- Pages fetched (loop iterations executed) in a run. -/
def FetchResult.pages : FetchResult → Nat
  | .ok _ p => p
  | .httpError _ p => p
  | .tooManyPages p => p

/-- The `while next_url` loop of `fetch_enterprise_team_member_logins`,
started at page number `page` with `acc` the logins collected so far. Each
iteration fetches page `page`; a non-200 status aborts; otherwise the page's
logins are appended, the next URL is parsed from the Link header, `page` is
incremented, and the guard `if page > 200` aborts **before** the loop
condition is re-checked. On normal exit the collected logins are
deduplicated. -/
def fetchFrom (server : Nat → PageResp) (page : Nat) (acc : List String) :
    FetchResult :=
  let r := server page
  if r.status ≠ 200 then .httpError r.status page
  else
    let acc2 := acc ++ r.logins
    if page + 1 > 200 then .tooManyPages page
    else
      match parse_next_link r.link with
      | none => .ok (dedup acc2) page
      | some _ => fetchFrom server (page + 1) acc2
termination_by 201 - page
decreasing_by omega

/-- Model of `fetch_enterprise_team_member_logins`
(sync_team_cost_center_exact.py): the loop starts at page 1 with no logins
collected. -/
def fetch_enterprise_team_member_logins (server : Nat → PageResp) :
    FetchResult :=
  fetchFrom server 1 []

end ExactSync

/-! ## Theorems -/

/-- C1: for every pair of deduplicated identity sets (source = team,
target = cost center), the computed reconciliation plan satisfies
toAdd = source − target, toRemove = target − source,
alreadySynced = source ∩ target; the three sets are pairwise disjoint,
toAdd ∪ alreadySynced = source, and toRemove ∪ alreadySynced = target. -/
theorem reconciliation_plan_correct (team cc : Finset String) :
    ExactSync.users_to_add team cc = team \ cc ∧
    ExactSync.users_to_remove team cc = cc \ team ∧
    ExactSync.users_already_synced team cc = team ∩ cc ∧
    ExactSync.users_to_add team cc ∩ ExactSync.users_to_remove team cc = ∅ ∧
    ExactSync.users_to_add team cc ∩ ExactSync.users_already_synced team cc = ∅ ∧
    ExactSync.users_to_remove team cc ∩ ExactSync.users_already_synced team cc = ∅ ∧
    ExactSync.users_to_add team cc ∪ ExactSync.users_already_synced team cc = team ∧
    ExactSync.users_to_remove team cc ∪ ExactSync.users_already_synced team cc = cc := by
  refine ⟨rfl, rfl, rfl, ?_, ?_, ?_, ?_, ?_⟩ <;>
  · ext x
    simp [ExactSync.users_to_add, ExactSync.users_to_remove,
      ExactSync.users_already_synced]
    tauto

/-- C10: a 404 on the cost-center fetch returns the empty identity list (the
run continues, and with an empty target every team member is in the to-add
bucket), while every other non-200 status aborts the run. -/
theorem cost_center_404_returns_empty (resp : ExactSync.CCResp)
    (team : Finset String) :
    (resp.status = 404 → ExactSync.fetch_cost_center_users resp = .ok [] ∧
      ExactSync.users_to_add team (([] : List String).toFinset) = team) ∧
    (resp.status ≠ 404 → resp.status ≠ 200 →
      ExactSync.fetch_cost_center_users resp = .abortRun resp.status) := by
  constructor
  · intro h404
    refine ⟨by simp [ExactSync.fetch_cost_center_users, h404], ?_⟩
    simp [ExactSync.users_to_add]
  · intro h404 h200
    simp [ExactSync.fetch_cost_center_users, h404, h200]

/-- C10 witness: concrete 404 and 500 responses. -/
theorem cost_center_404_returns_empty_witness :
    ExactSync.fetch_cost_center_users ⟨404, []⟩ = .ok [] ∧
    ExactSync.users_to_add {"alice"} (([] : List String).toFinset) = {"alice"} ∧
    ExactSync.fetch_cost_center_users ⟨500, []⟩ = .abortRun 500 := by
  refine ⟨?_, ?_, ?_⟩
  · exact ((cost_center_404_returns_empty ⟨404, []⟩ {"alice"}).1 rfl).1
  · exact ((cost_center_404_returns_empty ⟨404, []⟩ {"alice"}).1 rfl).2
  · exact (cost_center_404_returns_empty ⟨500, []⟩ {"alice"}).2
      (by decide) (by decide)

/-- Helper: the segment loop of the next-link parser yields nothing when no
segment contains the next-relation marker. -/
theorem findNextIn_none (parts : List String)
    (h : ∀ p ∈ parts, strContains p relNextMarker = false) :
    findNextIn parts = none := by
  induction parts with
  | nil => rfl
  | cons p rest ih =>
    have hp := h p (by simp)
    simp only [findNextIn, hp, Bool.false_eq_true, if_false]
    exact ih fun q hq => h q (by simp [hq])

/-- C8: the next-link parser returns none for an absent header and for a
header none of whose comma-separated, stripped segments carries the
next-relation marker; on the documented example it extracts the
angle-bracket-delimited locator of the rel="next" segment. -/
theorem parse_next_link_spec :
    parse_next_link none = none ∧
    (∀ s : String, (∀ part ∈ (strSplitComma s).map strTrim,
        strContains part relNextMarker = false) →
      parse_next_link (some s) = none) ∧
    parse_next_link
        (some "<https://x/y?page=2>; rel=\"next\", <https://x/y?page=1>; rel=\"prev\"")
      = some "https://x/y?page=2" := by
  refine ⟨rfl, ?_, by decide⟩
  intro s h
  by_cases hs : s = "" <;> simp [parse_next_link, hs, findNextIn_none _ h]

/-- C8 witness: a header whose only relation is rel="prev" parses to none. -/
theorem parse_next_link_spec_witness :
    parse_next_link (some "<https://x/y?page=1>; rel=\"prev\"") = none :=
  parse_next_link_spec.2.1 _ (by decide)

/-- Helper: the seen-set loop equals the first-seen specification applied to
the input with the already-seen values filtered away. -/
theorem dedupGo_eq_fsdAux (xs : List String) :
    ∀ (seen : List String) (fuel : Nat), xs.length ≤ fuel →
      dedupGo xs seen = fsdAux fuel (xs.filter (fun a => decide (a ∉ seen))) := by
  induction xs with
  | nil => intro seen fuel h; cases fuel <;> simp [dedupGo, fsdAux]
  | cons x tl ih =>
    intro seen fuel h
    obtain ⟨f, rfl⟩ : ∃ f, fuel = f + 1 := ⟨fuel - 1, by simp at h; omega⟩
    have htl : tl.length ≤ f := by simp at h; omega
    by_cases hx : x ∈ seen
    · have hd : decide (x ∉ seen) = false := by simp [hx]
      simp only [dedupGo, if_pos hx, List.filter_cons, hd, Bool.false_eq_true,
        if_false]
      exact ih seen (f + 1) (Nat.le_succ_of_le htl)
    · have hd : decide (x ∉ seen) = true := by simp [hx]
      simp only [dedupGo, if_neg hx, List.filter_cons, hd, if_true, fsdAux]
      congr 1
      rw [List.filter_filter]
      have hfun : (fun a : String => decide (a ≠ x) && decide (a ∉ seen))
          = fun a : String => decide (a ∉ x :: seen) := by
        funext a
        by_cases h1 : a = x <;> by_cases h2 : a ∈ seen <;>
          simp [h1, h2, List.mem_cons]
      rw [hfun]
      exact ih (x :: seen) f htl

/-- Helper: the team-list deduplication loop computes exactly the first-seen
deduplication. -/
theorem dedup_eq_firstSeenDedup (xs : List String) :
    dedup xs = firstSeenDedup xs := by
  have h := dedupGo_eq_fsdAux xs [] xs.length le_rfl
  have hfil : xs.filter (fun a => decide (a ∉ ([] : List String))) = xs :=
    List.filter_eq_self.mpr (by intro a _; simp)
  rw [dedup, h, hfil, firstSeenDedup]

/-- Helper: when the fuel covers the list length, the first-seen
deduplication has no duplicates and exactly the members of the input. -/
theorem fsdAux_nodup_mem :
    ∀ (fuel : Nat) (xs : List String), xs.length ≤ fuel →
      (fsdAux fuel xs).Nodup ∧ (∀ a, a ∈ fsdAux fuel xs ↔ a ∈ xs) := by
  intro fuel
  induction fuel with
  | zero =>
    intro xs h
    have hx : xs = [] := by cases xs <;> simp_all
    subst hx
    simp [fsdAux]
  | succ f ih =>
    intro xs h
    cases xs with
    | nil => simp [fsdAux]
    | cons x tl =>
      have hlen : (tl.filter (fun a => decide (a ≠ x))).length ≤ f :=
        le_trans (List.length_filter_le _ _) (by simp at h; omega)
      obtain ⟨hnd, hmem⟩ := ih _ hlen
      constructor
      · simp only [fsdAux, List.nodup_cons]
        refine ⟨fun hx => ?_, hnd⟩
        have := (hmem x).mp hx
        simp [List.mem_filter] at this
      · intro a
        simp only [fsdAux, List.mem_cons, hmem, List.mem_filter]
        by_cases ha : a = x <;> simp [ha]

/-- C6 (amended): the team-member identity list is deduplicated preserving
first-seen order with each distinct value exactly once; the cost-center
identity list is deduplicated through an unordered set, so any of its
possible outputs contains each distinct value exactly once — it is a
permutation of the first-seen deduplication — but its order is not
constrained to be first-seen. -/
theorem dedup_first_seen_amended (xs : List String) :
    dedup xs = firstSeenDedup xs ∧
    (dedup xs).Nodup ∧
    (∀ a, a ∈ dedup xs ↔ a ∈ xs) ∧
    (∀ out, isSetEnumeration xs out → out.Perm (dedup xs)) := by
  have he := dedup_eq_firstSeenDedup xs
  obtain ⟨hnd, hmem⟩ := fsdAux_nodup_mem xs.length xs le_rfl
  have hnd2 : (dedup xs).Nodup := by rw [he, firstSeenDedup]; exact hnd
  have hmem2 : ∀ a, a ∈ dedup xs ↔ a ∈ xs := by
    intro a
    rw [he, firstSeenDedup]
    exact hmem a
  refine ⟨he, hnd2, hmem2, ?_⟩
  rintro out ⟨h1, h2, h3⟩
  refine List.perm_of_nodup_nodup_toFinset_eq h1 hnd2 ?_
  ext a
  simp only [List.mem_toFinset, hmem2]
  exact ⟨h2 a, h3 a⟩

/-- C6 witness: the loop deduplicates a concrete duplicated list to its
first-seen form, and a concrete unordered enumeration is a permutation of
it. -/
theorem dedup_first_seen_amended_witness :
    dedup ["b", "a", "b"] = firstSeenDedup ["b", "a", "b"] ∧
    dedup ["b", "a", "b"] = ["b", "a"] ∧
    List.Perm ["a", "b"] (dedup ["b", "a", "b"]) := by
  have h := dedup_first_seen_amended ["b", "a", "b"]
  exact ⟨h.1, by decide, h.2.2.2 ["a", "b"] (by decide)⟩

/-- C6 counterexample: `["a", "b"]` is a possible output of
`list(set(["b", "a", "b"]))` — it has no duplicates and exactly the input's
members — yet it is not the first-seen-order deduplication
`["b", "a"]`, so the cost-center list is not guaranteed to preserve
first-seen order. -/
theorem cost_center_dedup_order_counterexample :
    isSetEnumeration ["b", "a", "b"] ["a", "b"] ∧
    ["a", "b"] ≠ firstSeenDedup ["b", "a", "b"] ∧
    ["a", "b"] ≠ dedup ["b", "a", "b"] := by decide

/-- C2 (amended): classification of every add-mutation response, for both
add functions. Success statuses yield Success; 409/422 yield a benign skip,
reported as already-present exactly when the lowercased first 500 body
characters contain one of the script's markers ("already"/"exists" in
sync_team_cost_center_exact.py, additionally "has already been taken" and
"conflict" in sync_team_to_cost_center.py), and carrying the truncated raw
body otherwise; every other status is a hard failure aborting the run. -/
theorem add_outcome_classification (login : String) (status : Nat)
    (body : String) :
    (status = 200 ∨ status = 201 ∨ status = 202 ∨ status = 204 →
      ExactSync.add_user_to_cost_center login status body
        = .ok ("Added " ++ login) ∧
      TeamSync.add_user_to_cost_center login status body
        = .ok ("Added " ++ login ++ " (HTTP " ++ toString status ++ ")")) ∧
    ((status = 409 ∨ status = 422) →
      ((strContains (strLower (strTake body 500)) "already" ||
          strContains (strLower (strTake body 500)) "exists") = true →
        ExactSync.add_user_to_cost_center login status body
          = .skip ("Skip " ++ login ++ ": already exists")) ∧
      ((strContains (strLower (strTake body 500)) "already" ||
          strContains (strLower (strTake body 500)) "exists") = false →
        ExactSync.add_user_to_cost_center login status body
          = .skip ("Skip " ++ login ++ ": " ++ strTake body 500)) ∧
      ((strContains (strLower (strTake body 500)) "already" ||
          strContains (strLower (strTake body 500)) "exists" ||
          strContains (strLower (strTake body 500)) "has already been taken" ||
          strContains (strLower (strTake body 500)) "conflict") = true →
        TeamSync.add_user_to_cost_center login status body
          = .skip ("Skip " ++ login ++ ": already in cost center (HTTP "
              ++ toString status ++ ")")) ∧
      ((strContains (strLower (strTake body 500)) "already" ||
          strContains (strLower (strTake body 500)) "exists" ||
          strContains (strLower (strTake body 500)) "has already been taken" ||
          strContains (strLower (strTake body 500)) "conflict") = false →
        TeamSync.add_user_to_cost_center login status body
          = .skip ("Skip " ++ login ++ ": not added (HTTP " ++ toString status
              ++ ") body=" ++ strTake body 500))) ∧
    (ExactSync.add_user_to_cost_center login status body = .fatal status ↔
      ¬(status = 200 ∨ status = 201 ∨ status = 202 ∨ status = 204) ∧
      ¬(status = 409 ∨ status = 422)) ∧
    (TeamSync.add_user_to_cost_center login status body = .fatal status ↔
      ¬(status = 200 ∨ status = 201 ∨ status = 202 ∨ status = 204) ∧
      ¬(status = 409 ∨ status = 422)) := by
  refine ⟨?_, ?_, ?_, ?_⟩
  · rintro (rfl | rfl | rfl | rfl) <;>
      simp [ExactSync.add_user_to_cost_center, TeamSync.add_user_to_cost_center]
  · intro hs
    have h1 : ¬(status = 200 ∨ status = 201 ∨ status = 202 ∨ status = 204) := by
      rcases hs with rfl | rfl <;> decide
    refine ⟨?_, ?_, ?_, ?_⟩ <;> intro hm <;>
      simp [ExactSync.add_user_to_cost_center, TeamSync.add_user_to_cost_center,
        h1, hs, hm]
  · constructor
    · intro h
      by_cases h1 : status = 200 ∨ status = 201 ∨ status = 202 ∨ status = 204
      · simp [ExactSync.add_user_to_cost_center, h1] at h
      · by_cases h2 : status = 409 ∨ status = 422
        · exfalso
          simp only [ExactSync.add_user_to_cost_center, h1, h2, if_true,
            if_false] at h
          split at h <;> simp_all
        · exact ⟨h1, h2⟩
    · rintro ⟨h1, h2⟩
      simp [ExactSync.add_user_to_cost_center, h1, h2]
  · constructor
    · intro h
      by_cases h1 : status = 200 ∨ status = 201 ∨ status = 202 ∨ status = 204
      · simp [TeamSync.add_user_to_cost_center, h1] at h
      · by_cases h2 : status = 409 ∨ status = 422
        · exfalso
          simp only [TeamSync.add_user_to_cost_center, h1, h2, if_true,
            if_false] at h
          split at h <;> simp_all
        · exact ⟨h1, h2⟩
    · rintro ⟨h1, h2⟩
      simp [TeamSync.add_user_to_cost_center, h1, h2]

/-- C2 witness: a 409 with a duplicate-marker body is an already-present
skip, and a 500 (in either script) is a hard failure. -/
theorem add_outcome_classification_witness :
    ExactSync.add_user_to_cost_center "u" 409 "User already exists"
      = .skip "Skip u: already exists" ∧
    ExactSync.add_user_to_cost_center "u" 500 "oops" = .fatal 500 := by
  have h1 := add_outcome_classification "u" 409 "User already exists"
  have h2 := add_outcome_classification "u" 500 "oops"
  exact ⟨(h1.2.1 (Or.inl rfl)).1 (by decide), (h2.2.2.1).mpr (by decide)⟩

/-- C2 counterexample: in sync_team_cost_center_exact.py a 409 whose body is
"Conflict" — which contains the claimed marker "conflict" case-insensitively
— is NOT reported as already present; it takes the raw-body skip branch. -/
theorem add_conflict_marker_counterexample :
    strContains (strLower "Conflict") "conflict" = true ∧
    ExactSync.add_user_to_cost_center "u" 409 "Conflict"
      = .skip "Skip u: Conflict" ∧
    ExactSync.add_user_to_cost_center "u" 409 "Conflict"
      ≠ .skip "Skip u: already exists" := by decide

/-- Padding used by the C3 counterexample; 500 characters long. -/
def longPad : String := String.mk (List.replicate 500 'x')

/-- A 512-character body whose "no resources" marker lies entirely beyond
the 500-character prefix the remove classifier examines. -/
def longBody : String := longPad ++ "no resources"

/-- C3 (amended): classification of every remove-mutation response
(sync_team_cost_center_exact.py). Success statuses yield Success; a 400
whose lowercased first 500 body characters contain "no resources" is a
benign skip ("not in cost center"); any other 400 is a benign skip carrying
the truncated raw body; a 404 is a benign skip ("not found"); and the
operation aborts the run exactly when the status matches none of these
cases. -/
theorem remove_outcome_classification (login : String) (status : Nat)
    (body : String) :
    (status = 200 ∨ status = 201 ∨ status = 202 ∨ status = 204 →
      ExactSync.remove_user_from_cost_center login status body
        = .ok ("Removed " ++ login)) ∧
    (status = 400 →
      (strContains (strLower (strTake body 500)) "no resources" = true →
        ExactSync.remove_user_from_cost_center login status body
          = .skip ("Skip " ++ login
              ++ ": not in cost center (API says no resources to remove)")) ∧
      (strContains (strLower (strTake body 500)) "no resources" = false →
        ExactSync.remove_user_from_cost_center login status body
          = .skip ("Skip " ++ login ++ ": " ++ strTake body 500))) ∧
    (status = 404 →
      ExactSync.remove_user_from_cost_center login status body
        = .skip ("Skip " ++ login ++ ": endpoint or user not found (HTTP 404)")) ∧
    (ExactSync.remove_user_from_cost_center login status body = .fatal status ↔
      ¬(status = 200 ∨ status = 201 ∨ status = 202 ∨ status = 204) ∧
      status ≠ 400 ∧ status ≠ 404) := by
  refine ⟨?_, ?_, ?_, ?_⟩
  · rintro (rfl | rfl | rfl | rfl) <;>
      simp [ExactSync.remove_user_from_cost_center]
  · rintro rfl
    constructor <;> intro hm <;>
      simp [ExactSync.remove_user_from_cost_center, hm]
  · rintro rfl
    simp [ExactSync.remove_user_from_cost_center]
  · constructor
    · intro h
      by_cases h1 : status = 200 ∨ status = 201 ∨ status = 202 ∨ status = 204
      · simp [ExactSync.remove_user_from_cost_center, h1] at h
      · by_cases h2 : status = 400
        · exfalso
          simp only [ExactSync.remove_user_from_cost_center, h1, h2, if_true,
            if_false] at h
          by_cases hb : strContains (strLower (strTake body 500)) "no resources"
              = true
          · rw [if_pos hb] at h
            exact MutationResult.noConfusion h
          · rw [if_neg hb] at h
            exact MutationResult.noConfusion h
        · by_cases h3 : status = 404
          · simp [ExactSync.remove_user_from_cost_center, h1, h2, h3] at h
          · exact ⟨h1, h2, h3⟩
    · rintro ⟨h1, h2, h3⟩
      simp [ExactSync.remove_user_from_cost_center, h1, h2, h3]

/-- C3 witness: a 400 with body "No resources to remove" is a not-present
skip, a plain 404 is a not-found skip, and a 500 is a hard failure. -/
theorem remove_outcome_classification_witness :
    ExactSync.remove_user_from_cost_center "u" 400 "No resources to remove"
      = .skip "Skip u: not in cost center (API says no resources to remove)" ∧
    ExactSync.remove_user_from_cost_center "u" 404 ""
      = .skip "Skip u: endpoint or user not found (HTTP 404)" ∧
    ExactSync.remove_user_from_cost_center "u" 500 "" = .fatal 500 := by
  have h1 := remove_outcome_classification "u" 400 "No resources to remove"
  have h2 := remove_outcome_classification "u" 404 ""
  have h3 := remove_outcome_classification "u" 500 ""
  exact ⟨(h1.2.1 rfl).1 (by decide), h2.2.2.1 rfl,
    (h3.2.2.2).mpr (by decide)⟩

/-- C3 counterexample: a 400 body that does contain "no resources", but only
past the 500-character prefix the code examines, is reported with the
raw-body skip, not the not-present skip the claim assigns to it. -/
theorem remove_truncation_counterexample :
    strContains (strLower longBody) "no resources" = true ∧
    ExactSync.remove_user_from_cost_center "u" 400 longBody
      = .skip ("Skip u: " ++ longPad) ∧
    ExactSync.remove_user_from_cost_center "u" 400 longBody
      ≠ .skip "Skip u: not in cost center (API says no resources to remove)" := by
  decide

/-- Helper: unfolding one retried attempt of the executor loop. -/
theorem rwbAux_step_retry (send : Nat → TestSync.HttpResp) (jitter : Nat → ℚ)
    (mb rem attempt : Nat) (last : Option TestSync.HttpResp)
    (h : TestSync.shouldRetry (send attempt) = true) :
    TestSync.rwbAux send jitter mb (rem + 1) attempt last
      = ((TestSync.rwbAux send jitter mb rem (attempt + 1)
            (some (send attempt))).1,
         TestSync.retrySleep mb attempt (send attempt) (jitter attempt)
           :: (TestSync.rwbAux send jitter mb rem (attempt + 1)
                 (some (send attempt))).2) := by
  simp only [TestSync.shouldRetry, Bool.or_eq_true, Bool.and_eq_true,
    beq_iff_eq] at h
  have hcond : ¬((send attempt).status ≠ 403 ∧ (send attempt).status ≠ 429) := by
    tauto
  have hretry : (((send attempt).status == 429)
      || TestSync.is_secondary_rate_limit (send attempt)) = true := by
    rcases h with h | ⟨h1, h2⟩
    · simp [h]
    · simp [h2]
  simp [TestSync.rwbAux, hcond, hretry]

/-- Helper: unfolding one non-retried attempt of the executor loop; the
response of that attempt is returned at once with no sleep recorded. -/
theorem rwbAux_step_stop (send : Nat → TestSync.HttpResp) (jitter : Nat → ℚ)
    (mb rem attempt : Nat) (last : Option TestSync.HttpResp)
    (h : TestSync.shouldRetry (send attempt) = false) :
    TestSync.rwbAux send jitter mb (rem + 1) attempt last
      = (some (send attempt), []) := by
  by_cases hc : (send attempt).status ≠ 403 ∧ (send attempt).status ≠ 429
  · simp [TestSync.rwbAux, hc]
  · have h403 : (send attempt).status = 403 := by
      by_cases hne : (send attempt).status = 403
      · exact hne
      · exfalso
        have h429 : (send attempt).status = 429 := by tauto
        simp [TestSync.shouldRetry, h429] at h
    have hsec : TestSync.is_secondary_rate_limit (send attempt) = false := by
      simp [TestSync.shouldRetry, h403] at h
      exact h
    simp [TestSync.rwbAux, hc, h403, hsec]

/-- Helper: the sleeps performed over retried attempts are one `retrySleep`
per attempt, in attempt order. -/
theorem expSleeps_get (send : Nat → TestSync.HttpResp) (jitter : Nat → ℚ)
    (mb : Nat) :
    ∀ (k attempt i : Nat)
      (hi : i < (TestSync.expSleeps send jitter mb attempt k).length),
      (TestSync.expSleeps send jitter mb attempt k).get ⟨i, hi⟩
        = TestSync.retrySleep mb (attempt + i) (send (attempt + i))
            (jitter (attempt + i)) := by
  intro k
  induction k with
  | zero => intro attempt i hi; simp [TestSync.expSleeps] at hi
  | succ n ih =>
    intro attempt i hi
    cases i with
    | zero => simp [TestSync.expSleeps]
    | succ j =>
      have hj : j < (TestSync.expSleeps send jitter mb (attempt + 1) n).length := by
        simpa [TestSync.expSleeps] using hi
      have := ih (attempt + 1) j hj
      rw [show attempt + 1 + j = attempt + (j + 1) from by omega] at this
      simpa [TestSync.expSleeps, List.get_cons_succ] using this

/-- Helper: exactly one sleep is recorded per retried attempt. -/
theorem expSleeps_length (send : Nat → TestSync.HttpResp) (jitter : Nat → ℚ)
    (mb : Nat) :
    ∀ (k attempt : Nat),
      (TestSync.expSleeps send jitter mb attempt k).length = k := by
  intro k
  induction k with
  | zero => intro attempt; simp [TestSync.expSleeps]
  | succ n ih => intro attempt; simp [TestSync.expSleeps, ih]

/-- Helper: a run whose first `rem` attempts are all retryable performs all
of them, sleeps after each, and hands back the last received response. -/
theorem rwbAux_exhaust (send : Nat → TestSync.HttpResp) (jitter : Nat → ℚ)
    (mb : Nat) :
    ∀ (rem attempt : Nat) (last : Option TestSync.HttpResp),
      (∀ j, j < rem → TestSync.shouldRetry (send (attempt + j)) = true) →
      TestSync.rwbAux send jitter mb rem attempt last
        = ((if rem = 0 then last else some (send (attempt + rem - 1))),
           TestSync.expSleeps send jitter mb attempt rem) := by
  intro rem
  induction rem with
  | zero => intro attempt last h; simp [TestSync.rwbAux, TestSync.expSleeps]
  | succ n ih =>
    intro attempt last h
    rw [rwbAux_step_retry send jitter mb n attempt last
      (by simpa using h 0 (Nat.succ_pos n))]
    rw [ih (attempt + 1) (some (send attempt)) (fun j hj => by
      have hh := h (j + 1) (by omega)
      rw [show attempt + 1 + j = attempt + (j + 1) from by omega]
      exact hh)]
    have hx : attempt + (n + 1) - 1 = attempt + n := by omega
    cases n with
    | zero => simp [TestSync.expSleeps]
    | succ k =>
      have hy : attempt + 1 + (k + 1) - 1 = attempt + (k + 1) := by omega
      simp only [Nat.succ_ne_zero, if_false, hx, hy, TestSync.expSleeps]

/-- Helper: a run whose first `k` attempts are retryable and whose attempt
`k` is not returns attempt k's response immediately after `k` sleeps. -/
theorem rwbAux_first_stop (send : Nat → TestSync.HttpResp) (jitter : Nat → ℚ)
    (mb : Nat) :
    ∀ (k rem attempt : Nat) (last : Option TestSync.HttpResp),
      k < rem →
      (∀ j, j < k → TestSync.shouldRetry (send (attempt + j)) = true) →
      TestSync.shouldRetry (send (attempt + k)) = false →
      TestSync.rwbAux send jitter mb rem attempt last
        = (some (send (attempt + k)),
           TestSync.expSleeps send jitter mb attempt k) := by
  intro k
  induction k with
  | zero =>
    intro rem attempt last hk h hstop
    obtain ⟨n, rfl⟩ : ∃ n, rem = n + 1 := ⟨rem - 1, by omega⟩
    rw [rwbAux_step_stop send jitter mb n attempt last (by simpa using hstop)]
    simp [TestSync.expSleeps]
  | succ k ih =>
    intro rem attempt last hk h hstop
    obtain ⟨n, rfl⟩ : ∃ n, rem = n + 1 := ⟨rem - 1, by omega⟩
    rw [rwbAux_step_retry send jitter mb n attempt last
      (by simpa using h 0 (Nat.succ_pos k))]
    rw [ih n (attempt + 1) (some (send attempt)) (by omega)
      (fun j hj => by
        have hh := h (j + 1) (by omega)
        rw [show attempt + 1 + j = attempt + (j + 1) from by omega]
        exact hh)
      (by
        rw [show attempt + 1 + k = attempt + (k + 1) from by omega]
        exact hstop)]
    rw [show attempt + 1 + k = attempt + (k + 1) from by omega]
    simp [TestSync.expSleeps]

/-- Helper: whatever the response stream, the sleeps of a run form an
initial segment of per-attempt retry sleeps. -/
theorem rwbAux_sleeps_shape (send : Nat → TestSync.HttpResp) (jitter : Nat → ℚ)
    (mb : Nat) :
    ∀ (rem attempt : Nat) (last : Option TestSync.HttpResp),
      ∃ k, (TestSync.rwbAux send jitter mb rem attempt last).2
        = TestSync.expSleeps send jitter mb attempt k := by
  intro rem
  induction rem with
  | zero =>
    intro attempt last
    exact ⟨0, by simp [TestSync.rwbAux, TestSync.expSleeps]⟩
  | succ n ih =>
    intro attempt last
    cases hr : TestSync.shouldRetry (send attempt) with
    | false =>
      exact ⟨0, by rw [rwbAux_step_stop send jitter mb n attempt last hr]
                   simp [TestSync.expSleeps]⟩
    | true =>
      obtain ⟨k, hk⟩ := ih (attempt + 1) (some (send attempt))
      refine ⟨k + 1, ?_⟩
      rw [rwbAux_step_retry send jitter mb n attempt last hr]
      simp [TestSync.expSleeps, hk]

/-- C4: the executor retries exactly on 429, or on 403 whose message
contains the secondary-rate-limit marker (that is the definition of
`shouldRetry`); the first non-retryable response is returned immediately
with one sleep per preceding retried attempt, and when all 8 attempts are
retryable the loop stops and the last received response (attempt 7) is
returned as-is. -/
theorem backoff_retry_policy (send : Nat → TestSync.HttpResp)
    (jitter : Nat → ℚ) :
    (∀ r : TestSync.HttpResp, TestSync.shouldRetry r
      = ((r.status == 429)
          || ((r.status == 403) && TestSync.is_secondary_rate_limit r))) ∧
    (∀ k, k < 8 → (∀ j, j < k → TestSync.shouldRetry (send j) = true) →
      TestSync.shouldRetry (send k) = false →
      TestSync.request_with_backoff send jitter 8 60
        = (some (send k), TestSync.expSleeps send jitter 60 0 k) ∧
      (TestSync.request_with_backoff send jitter 8 60).2.length = k) ∧
    ((∀ j, j < 8 → TestSync.shouldRetry (send j) = true) →
      TestSync.request_with_backoff send jitter 8 60
        = (some (send 7), TestSync.expSleeps send jitter 60 0 8) ∧
      (TestSync.request_with_backoff send jitter 8 60).2.length = 8) := by
  refine ⟨fun r => rfl, ?_, ?_⟩
  · intro k hk h hstop
    have heq : TestSync.request_with_backoff send jitter 8 60
        = (some (send k), TestSync.expSleeps send jitter 60 0 k) := by
      rw [TestSync.request_with_backoff]
      have := rwbAux_first_stop send jitter 60 k 8 0 none hk
        (fun j hj => by simpa using h j hj) (by simpa using hstop)
      simpa using this
    exact ⟨heq, by rw [heq]; exact expSleeps_length send jitter 60 k 0⟩
  · intro h
    have heq : TestSync.request_with_backoff send jitter 8 60
        = (some (send 7), TestSync.expSleeps send jitter 60 0 8) := by
      rw [TestSync.request_with_backoff]
      have := rwbAux_exhaust send jitter 60 8 0 none
        (fun j hj => by simpa using h j hj)
      simpa using this
    exact ⟨heq, by rw [heq]; exact expSleeps_length send jitter 60 8 0⟩

/-- C4 witness: a 429 followed by a 200 retries once and returns the 200;
eight straight 429s exhaust the ceiling and the eighth response is handed
back as-is. -/
theorem backoff_retry_policy_witness :
    TestSync.request_with_backoff
        (fun n => if n = 0 then TestSync.HttpResp.mk 429 none ""
          else TestSync.HttpResp.mk 200 none "") (fun _ => 0) 8 60
      = (some (TestSync.HttpResp.mk 200 none ""),
         TestSync.expSleeps
           (fun n => if n = 0 then TestSync.HttpResp.mk 429 none ""
             else TestSync.HttpResp.mk 200 none "") (fun _ => 0) 60 0 1) ∧
    (TestSync.request_with_backoff (fun _ => TestSync.HttpResp.mk 429 none "")
        (fun _ => 0) 8 60).2.length = 8 := by
  constructor
  · exact ((backoff_retry_policy
      (fun n => if n = 0 then TestSync.HttpResp.mk 429 none ""
        else TestSync.HttpResp.mk 200 none "") (fun _ => 0)).2.1 1
      (by decide) (fun j hj => by
        have hj0 : j = 0 := by omega
        subst hj0
        decide)
      (by decide)).1
  · exact ((backoff_retry_policy (fun _ => TestSync.HttpResp.mk 429 none "")
      (fun _ => 0)).2.2 (fun j hj => by decide)).2

/-- C5: whenever the executor sleeps before retrying attempt i, the sleep
equals the Retry-After header value when that header is present and is a
digit string (independently of the attempt number), and otherwise equals
min(60, 2^i) plus that attempt's jitter — hence it lies between
min(60, 2^i) and min(60, 2^i) + 1.5 when the jitter is drawn from
[0, 1.5]. -/
theorem backoff_delay_policy (send : Nat → TestSync.HttpResp)
    (jitter : Nat → ℚ) (hj : ∀ n, 0 ≤ jitter n ∧ jitter n ≤ 3 / 2)
    (i : Nat)
    (hi : i < (TestSync.request_with_backoff send jitter 8 60).2.length) :
    (∀ ra, (send i).retryAfter = some ra → pyIsDigit ra = true →
      (TestSync.request_with_backoff send jitter 8 60).2.get ⟨i, hi⟩
        = (strToNat ra : ℚ)) ∧
    (((send i).retryAfter = none ∨
        (∃ ra, (send i).retryAfter = some ra ∧ pyIsDigit ra = false)) →
      (TestSync.request_with_backoff send jitter 8 60).2.get ⟨i, hi⟩
          = min (60 : ℚ) (2 ^ i) + jitter i ∧
        min (60 : ℚ) (2 ^ i)
          ≤ (TestSync.request_with_backoff send jitter 8 60).2.get ⟨i, hi⟩ ∧
        (TestSync.request_with_backoff send jitter 8 60).2.get ⟨i, hi⟩
          ≤ min (60 : ℚ) (2 ^ i) + 3 / 2) := by
  obtain ⟨k, hk⟩ := rwbAux_sleeps_shape send jitter 60 8 0 none
  have hk' : (TestSync.request_with_backoff send jitter 8 60).2
      = TestSync.expSleeps send jitter 60 0 k := hk
  have hget : (TestSync.request_with_backoff send jitter 8 60).2.get ⟨i, hi⟩
      = TestSync.retrySleep 60 i (send i) (jitter i) := by
    rw [List.get_of_eq hk' ⟨i, hi⟩]
    have := expSleeps_get send jitter 60 k 0 i (by rw [hk'] at hi; exact hi)
    simpa using this
  rw [hget]
  constructor
  · intro ra hra hdig
    simp [TestSync.retrySleep, hra, hdig]
  · intro hcase
    have hfall : TestSync.retrySleep 60 i (send i) (jitter i)
        = min (60 : ℚ) (2 ^ i) + jitter i := by
      rcases hcase with hnone | ⟨ra, hra, hdig⟩
      · simp [TestSync.retrySleep, hnone]
      · simp [TestSync.retrySleep, hra, hdig]
    refine ⟨hfall, ?_, ?_⟩
    · rw [hfall]
      have := (hj i).1
      linarith
    · rw [hfall]
      have := (hj i).2
      linarith

/-- C5 witness: with Retry-After: 5 on every response, the first sleep of
the run is exactly 5 seconds. -/
theorem backoff_delay_policy_witness :
    (TestSync.request_with_backoff
        (fun _ => TestSync.HttpResp.mk 429 (some "5") "") (fun _ => 1) 8
        60).2.get ⟨0, by decide⟩ = (5 : ℚ) := by
  have h := (backoff_delay_policy
    (fun _ => TestSync.HttpResp.mk 429 (some "5") "") (fun _ => 1)
    (fun n => by norm_num) 0 (by decide)).1 "5" rfl (by decide)
  rw [h]
  have h5 : strToNat "5" = 5 := by decide
  rw [h5]
  norm_num

/-- Helper: the chunking contract, proved by strong induction on the list
length. -/
theorem chunked_spec_aux :
    ∀ (n : Nat) (xs : List String) (k : Nat), xs.length ≤ n → 0 < k →
      (TestSync.chunked xs k).flatten = xs ∧
      (∀ c ∈ TestSync.chunked xs k, c.length ≤ k) ∧
      (TestSync.chunked xs k).length = (xs.length + k - 1) / k := by
  have hnil : ∀ k : Nat, 0 < k →
      (TestSync.chunked [] k).flatten = ([] : List String) ∧
      (∀ c ∈ TestSync.chunked [] k, c.length ≤ k) ∧
      (TestSync.chunked [] k).length = (List.length ([] : List String) + k - 1) / k := by
    intro k hk
    have hc : TestSync.chunked [] k = [] := by simp [TestSync.chunked]
    rw [hc]
    refine ⟨rfl, by simp, ?_⟩
    rw [show List.length ([] : List String) + k - 1 = k - 1 from by simp]
    exact (Nat.div_eq_of_lt (by omega)).symm
  intro n
  induction n with
  | zero =>
    intro xs k h hk
    have hx : xs = [] := by cases xs <;> simp_all
    subst hx
    exact hnil k hk
  | succ n ih =>
    intro xs k h hk
    by_cases hx : xs = []
    · subst hx
      exact hnil k hk
    · have hne : xs.isEmpty = false := by simp [hx]
      have hk0 : ¬(k = 0) := by omega
      have hL : 0 < xs.length := List.length_pos.mpr hx
      have hdrop : (xs.drop k).length ≤ n := by
        simp only [List.length_drop]
        omega
      obtain ⟨ihj, ihc, ihl⟩ := ih (xs.drop k) k hdrop hk
      rw [TestSync.chunked]
      rw [if_neg (by simp [hne]), if_neg hk0]
      refine ⟨?_, ?_, ?_⟩
      · simp [ihj]
      · intro c hc
        rcases List.mem_cons.mp hc with rfl | hc2
        · simp only [List.length_take]
          omega
        · exact ihc c hc2
      · simp only [List.length_cons, ihl, List.length_drop]
        by_cases hLk : xs.length ≤ k
        · rw [show xs.length - k = 0 from by omega]
          rw [show 0 + k - 1 = k - 1 from by omega]
          rw [show (k - 1) / k = 0 from Nat.div_eq_of_lt (by omega)]
          rw [show xs.length + k - 1 = (xs.length - 1) + k from by omega]
          rw [Nat.add_div_right _ hk]
          rw [show (xs.length - 1) / k = 0 from Nat.div_eq_of_lt (by omega)]
        · obtain ⟨m, hm⟩ : ∃ m, xs.length = m + k := ⟨xs.length - k, by omega⟩
          rw [hm, Nat.add_sub_cancel]
          rw [show m + k + k - 1 = (m + k - 1) + k from by omega]
          rw [Nat.add_div_right _ hk]
  
/-- C7: for every identity list and positive chunk size, the chunks
concatenate back to the input (so they are contiguous, ordered, and
non-overlapping), each chunk has length at most the chunk size, the number
of chunks is ceil(n / size), and the empty input yields no chunks. -/
theorem chunked_spec (xs : List String) (k : Nat) (hk : 0 < k) :
    (TestSync.chunked xs k).flatten = xs ∧
    (∀ c ∈ TestSync.chunked xs k, c.length ≤ k) ∧
    (TestSync.chunked xs k).length = (xs.length + k - 1) / k ∧
    TestSync.chunked [] k = [] := by
  obtain ⟨h1, h2, h3⟩ := chunked_spec_aux xs.length xs k le_rfl hk
  exact ⟨h1, h2, h3, by simp [TestSync.chunked]⟩

/-- C7 witness: chunking a three-element list into pairs. -/
theorem chunked_spec_witness :
    (TestSync.chunked ["a", "b", "c"] 2).flatten = ["a", "b", "c"] ∧
    (TestSync.chunked ["a", "b", "c"] 2).length = 2 := by
  have h := chunked_spec ["a", "b", "c"] 2 (by decide)
  exact ⟨h.1, h.2.2.1.trans (by decide)⟩

/-- Helper: when every page from `page` on is served with status 200 and a
next link, the fetch loop trips the 200-page guard. -/
theorem fetchFrom_always_next (server : Nat → ExactSync.PageResp)
    (hs : ∀ n, 1 ≤ n → (server n).status = 200 ∧
      parse_next_link (server n).link ≠ none) :
    ∀ (d page : Nat) (acc : List String), page + d = 200 → 1 ≤ page →
      ExactSync.fetchFrom server page acc = .tooManyPages 200 := by
  intro d
  induction d with
  | zero =>
    intro page acc hpd hp
    have hpage : page = 200 := by omega
    subst hpage
    obtain ⟨h200, _⟩ := hs 200 (by omega)
    rw [ExactSync.fetchFrom]
    simp [h200]
  | succ d ih =>
    intro page acc hpd hp
    obtain ⟨h200, hnext⟩ := hs page hp
    have hguard : ¬(page + 1 > 200) := by omega
    rw [ExactSync.fetchFrom]
    cases hl : parse_next_link (server page).link with
    | none => exact absurd hl hnext
    | some u =>
      simp only [h200, ne_eq, not_true_eq_false, if_false, hguard, hl]
      exact ih (page + 1) (acc ++ (server page).logins) (by omega) (by omega)

/-- Helper: whatever the server does, a run started at a page number of at
most 200 fetches at most 200 pages. -/
theorem fetchFrom_pages_le (server : Nat → ExactSync.PageResp) :
    ∀ (d page : Nat) (acc : List String), page + d = 200 → 1 ≤ page →
      (ExactSync.fetchFrom server page acc).pages ≤ 200 := by
  intro d
  induction d with
  | zero =>
    intro page acc hpd hp
    have hpage : page = 200 := by omega
    subst hpage
    by_cases h2 : (server 200).status = 200
    · have hstep : ExactSync.fetchFrom server 200 acc
          = .tooManyPages 200 := by
        rw [ExactSync.fetchFrom]
        simp [h2]
      rw [hstep]
      show (200 : Nat) ≤ 200
      omega
    · have hstep : ExactSync.fetchFrom server 200 acc
          = .httpError (server 200).status 200 := by
        rw [ExactSync.fetchFrom]
        simp [h2]
      rw [hstep]
      show (200 : Nat) ≤ 200
      omega
  | succ d ih =>
    intro page acc hpd hp
    by_cases h2 : (server page).status = 200
    · have hguard : ¬(page + 1 > 200) := by omega
      cases hl : parse_next_link (server page).link with
      | none =>
        have hstep : ExactSync.fetchFrom server page acc
            = .ok (dedup (acc ++ (server page).logins)) page := by
          rw [ExactSync.fetchFrom]
          simp [h2, hguard, hl]
        rw [hstep]
        show page ≤ 200
        omega
      | some u =>
        have hstep : ExactSync.fetchFrom server page acc
            = ExactSync.fetchFrom server (page + 1)
                (acc ++ (server page).logins) := by
          rw [ExactSync.fetchFrom]
          simp [h2, hguard, hl]
        rw [hstep]
        exact ih (page + 1) (acc ++ (server page).logins) (by omega) (by omega)
    · have hstep : ExactSync.fetchFrom server page acc
          = .httpError (server page).status page := by
        rw [ExactSync.fetchFrom]
        simp [h2]
      rw [hstep]
      show page ≤ 200
      omega

/-- C9: a server that always supplies a next locator makes the membership
fetch abort with the pagination-loop guard after exactly 200 fetched pages,
and no run of the fetch loop ever executes more than 200 iterations. -/
theorem pagination_guard :
    (∀ server : Nat → ExactSync.PageResp,
      (∀ n, 1 ≤ n → (server n).status = 200 ∧
        parse_next_link (server n).link ≠ none) →
      ExactSync.fetch_enterprise_team_member_logins server
        = .tooManyPages 200) ∧
    (∀ server : Nat → ExactSync.PageResp,
      (ExactSync.fetch_enterprise_team_member_logins server).pages ≤ 200) := by
  constructor
  · intro server hs
    exact fetchFrom_always_next server hs 199 1 [] (by omega) le_rfl
  · intro server
    exact fetchFrom_pages_le server 199 1 [] (by omega) le_rfl

/-- C9 witness: a concrete adversarial server that always answers 200 with
a rel="next" link. -/
theorem pagination_guard_witness :
    ExactSync.fetch_enterprise_team_member_logins
        (fun _ => ExactSync.PageResp.mk 200 [] (some "<u>; rel=\"next\""))
      = .tooManyPages 200 :=
  pagination_guard.1 _ (fun n hn => ⟨rfl, by decide⟩)
